import Mathlib

/-!
Verification of the Buddhabrot generator (src/BuddhabrotGenerator/main.cc).

The C++ source computes with IEEE `double`; the shallow embedding models those
values as exact rationals, except where a claim genuinely hinges on IEEE
rounding, in which case a dedicated round-to-nearest-even model is used and
said so in the doc comment of the relevant definition.
-/

namespace Buddhabrot

/-- Embeds the C++ `Complex` class: an ordered pair of (exact-valued) reals. -/
structure Complex where
  r : ℚ
  i : ℚ
deriving DecidableEq

/-- `Complex::operator*`: `(a + bi)(c + di)`. -/
def Complex.mul (a b : Complex) : Complex :=
  ⟨a.r * b.r - a.i * b.i, a.r * b.i + a.i * b.r⟩

instance : Mul Complex := ⟨Complex.mul⟩

/-- `Complex::operator+`: componentwise sum. -/
def Complex.add (a b : Complex) : Complex :=
  ⟨a.r + b.r, a.i + b.i⟩

instance : Add Complex := ⟨Complex.add⟩

/-- `Complex::sqmagnitude`: `_r * _r + _i * _i`. -/
def Complex.sqmagnitude (z : Complex) : ℚ :=
  z.r * z.r + z.i * z.i

/-- `static_cast<int>` on a real value: truncation toward zero. -/
def castToInt (q : ℚ) : Int :=
  if q < 0 then -⌊-q⌋ else ⌊q⌋

/-- The loop of `buddhabrotPoints`, with the remaining permitted iteration
count `fuel = nIterations - n` made explicit.  `none` corresponds to the loop
exiting with `n == nIterations` (the `return vector<Complex>()` branch);
`some l` corresponds to exiting on `z.sqmagnitude() > 2.0` with `n <
nIterations`, returning the accumulated points. -/
def buddhaAux (c : Complex) (z : Complex) : Nat → Option (List Complex)
  | 0 => none
  | fuel + 1 =>
    if z.sqmagnitude ≤ 2 then
      (buddhaAux c (z * z + c) fuel).map (fun rest => (z * z + c) :: rest)
    else
      some []

/-- `buddhabrotPoints(c, nIterations)` after a successful
`toReturn.reserve(nIterations)` (line 76): iterate `z ← z*z + c` from
`z = 0`, collecting each new `z`, while `n < nIterations &&
z.sqmagnitude() <= 2.0`; return the empty vector when the loop ended with
`n == nIterations`.  The `reserve` call itself succeeds exactly for
`nIterations ≥ 0`; the throwing case is modelled by
`buddhabrotPointsChecked` below. -/
def buddhabrotPoints (c : Complex) (nIterations : Int) : List Complex :=
  (buddhaAux c ⟨0, 0⟩ nIterations.toNat).getD []

/-- The full `buddhabrotPoints`, including the effect of
`toReturn.reserve(nIterations)` at line 76: for `nIterations < 0` the
`int`→`size_t` conversion produces a value above `vector::max_size()` and
`reserve` deterministically throws `std::length_error` before the loop runs,
so the call returns no sequence at all (`none`); for `nIterations ≥ 0` the
`reserve` succeeds and the loop's result is returned. -/
def buddhabrotPointsChecked (c : Complex) (nIterations : Int) :
    Option (List Complex) :=
  if nIterations < 0 then none
  else some (buddhabrotPoints c nIterations)

/-- `rowFromReal`: `(int)((real - minR) * (imageHeight / (maxR - minR)))`. -/
def rowFromReal (real minR maxR : ℚ) (imageHeight : Int) : Int :=
  castToInt ((real - minR) * ((imageHeight : ℚ) / (maxR - minR)))

/-- `colFromImaginary`: `(int)((imag - minI) * (imageWidth / (maxI - minI)))`. -/
def colFromImaginary (imag minI maxI : ℚ) (imageWidth : Int) : Int :=
  castToInt ((imag - minI) * ((imageWidth : ℚ) / (maxI - minI)))

/-- The orbit `z₀ = 0, z_{n+1} = z_n * z_n + c` named by iterate index;
follows the spec wording of §4.3 for comparison with `buddhabrotPoints`. -/
def mandelIter (c : Complex) : Nat → Complex
  | 0 => ⟨0, 0⟩
  | n + 1 => mandelIter c n * mandelIter c n + c

/-- A heatmap: unsigned counters indexed by `[row][col]`. -/
abbrev Grid := Int → Int → Nat

/-- The all-zero heatmap produced by `AllocHeatmap`. -/
def Grid.zero : Grid := fun _ _ => 0

/-- `++o_heatmap[row][col]`. -/
def Grid.inc (g : Grid) (row col : Int) : Grid :=
  fun r c => if r = row ∧ c = col then g r c + 1 else g r c

/-- The geometry parameters of `GenerateHeatmap`. -/
structure HeatmapConfig where
  imageWidth : Int
  imageHeight : Int
  minimum : Complex
  maximum : Complex

/-- The window-acceptance test of `GenerateHeatmap` (lines 140-141):
`point.r() <= maximum.r() && point.r() >= minimum.r() && point.i() <=
maximum.i() && point.i() >= minimum.i()` — inclusive on all four bounds. -/
def accepts (cfg : HeatmapConfig) (point : Complex) : Prop :=
  point.r ≤ cfg.maximum.r ∧ point.r ≥ cfg.minimum.r ∧
    point.i ≤ cfg.maximum.i ∧ point.i ≥ cfg.minimum.i

instance (cfg : HeatmapConfig) (point : Complex) : Decidable (accepts cfg point) := by
  unfold accepts
  infer_instance

/-- The body of the inner loop of `GenerateHeatmap` (lines 138-152): the
window-acceptance test, the coordinate mapping, the cell increment and the
global-maximum update, acting on the state `(grid, maxHeatmapValue)`. -/
def accumulatePoint (cfg : HeatmapConfig) (s : Grid × Nat) (point : Complex) :
    Grid × Nat :=
  if accepts cfg point then
    let row := rowFromReal point.r cfg.minimum.r cfg.maximum.r cfg.imageHeight
    let col := colFromImaginary point.i cfg.minimum.i cfg.maximum.i cfg.imageWidth
    let g := s.1.inc row col
    (g, if g row col > s.2 then g row col else s.2)
  else
    s

/-- `GenerateHeatmap`, derandomized: the list `samples` stands for the
sequence of draws the Mersenne twister produced; each sample's trajectory is fed
point by point to the accumulator.  The source performs no validation of the
configuration before this loop.  (A negative `nIterations` would make the
`reserve` throw of `buddhabrotPointsChecked` propagate out of the C++
function; `main` only passes non-negative bounds, and the theorems below
invoke this driver only at non-negative bounds.) -/
def GenerateHeatmap (cfg : HeatmapConfig) (nIterations : Int)
    (samples : List Complex) (s0 : Grid × Nat) : Grid × Nat :=
  samples.foldl
    (fun s sample => (buddhabrotPoints sample nIterations).foldl (accumulatePoint cfg) s)
    s0

/-- `colorFromHeatmap` with exact arithmetic in place of `double`:
`inputValue * (maxColor / maxHeatmapValue)` truncated to `int`.  (Division by
zero follows the rational convention `x / 0 = 0` here; the C++ produces
`inf`/`NaN` instead — see the claim about the missing zero guard.) -/
def colorFromHeatmap (inputValue maxHeatmapValue : Nat) (maxColor : Int) : Int :=
  castToInt ((inputValue : ℚ) * ((maxColor : ℚ) / (maxHeatmapValue : ℚ)))

/-- The scaling loop of `main` (lines 241-249) applied to one channel: every
cell is rescaled by `colorFromHeatmap(cell, maxHeatmapValue, 255)`,
unconditionally — `main` contains no check that `maxHeatmapValue` is nonzero. -/
def scaleGrid (g : Grid) (maxHeatmapValue : Nat) : Int → Int → Int :=
  fun r c => colorFromHeatmap (g r c) maxHeatmapValue 255

/-- Round half to even at integer precision. -/
def roundTiesEven (q : ℚ) : Int :=
  if q - ⌊q⌋ < 1 / 2 then ⌊q⌋
  else if q - ⌊q⌋ > 1 / 2 then ⌊q⌋ + 1
  else if ⌊q⌋ % 2 = 0 then ⌊q⌋ else ⌊q⌋ + 1

/-- IEEE binary64 round-to-nearest-even, modelled for rationals `q` with
`1 ≤ q < 2^53` (the only range the theorems below evaluate it on); inputs
outside that range are returned unchanged. -/
def roundDouble (q : ℚ) : ℚ :=
  if 1 ≤ q then
    let j := (⌊q⌋.toNat).log2
    let s : ℚ := 2 ^ (52 - j)
    (roundTiesEven (q * s) : ℚ) / s
  else q

/-- `colorFromHeatmap` with the two `double` operations (the division
`maxColor / maxHeatmapValue` and the product with `inputValue`) rounded as
IEEE binary64 arithmetic rounds them, then truncated by `static_cast<int>`.
The integer inputs convert to `double` exactly. -/
def colorFromHeatmapIEEE (inputValue maxHeatmapValue : Nat) (maxColor : Int) : Int :=
  castToInt (roundDouble ((inputValue : ℚ) * roundDouble ((maxColor : ℚ) / (maxHeatmapValue : ℚ))))

/-- `main`'s plane-window minimum `MINIMUM(-2.0, -2.0)`. -/
def MINIMUM : Complex := ⟨-2, -2⟩

/-- `main`'s plane-window maximum `MAXIMUM(1.0, 2.0)`. -/
def MAXIMUM : Complex := ⟨1, 2⟩

/-- `main`'s `IMAGE_HEIGHT`. -/
def IMAGE_HEIGHT : Int := 7000

/-- `main`'s `IMAGE_WIDTH`. -/
def IMAGE_WIDTH : Int := 7000

/-- The geometry `main` passes to each of the three `GenerateHeatmap` calls. -/
def mainConfig : HeatmapConfig := ⟨IMAGE_WIDTH, IMAGE_HEIGHT, MINIMUM, MAXIMUM⟩

/-- One of the three color channels of `main`. -/
inductive Channel
  | red
  | green
  | blue
deriving DecidableEq

/-- The state shared by `main`'s three sequential `GenerateHeatmap` calls:
the three channel grids and the single `maxHeatmapValue` scalar. -/
structure TriState where
  red : Grid
  green : Grid
  blue : Grid
  maxV : Nat

/-- The state as `main` sets it up: three freshly allocated all-zero grids
(`AllocHeatmap`) and `maxHeatmapValue = 0`. -/
def TriState.init : TriState := ⟨Grid.zero, Grid.zero, Grid.zero, 0⟩

/-- Select one channel's grid. -/
def TriState.chanGrid (s : TriState) : Channel → Grid
  | Channel.red => s.red
  | Channel.green => s.green
  | Channel.blue => s.blue

/-- Replace one channel's grid. -/
def TriState.setChan (s : TriState) : Channel → Grid → TriState
  | Channel.red, g => { s with red := g }
  | Channel.green, g => { s with green := g }
  | Channel.blue, g => { s with blue := g }

/-- One accumulation step of the three-pass run: the event `(ch, p)` feeds
point `p` to channel `ch`'s grid through `accumulatePoint`, with the single
shared `maxHeatmapValue`.  `main`'s three sequential passes are the special
case where all red events precede all green events precede all blue events. -/
def accumulateEvent (cfg : HeatmapConfig) (s : TriState) (e : Channel × Complex) :
    TriState :=
  { s.setChan e.1 (accumulatePoint cfg (s.chanGrid e.1, s.maxV) e.2).1 with
    maxV := (accumulatePoint cfg (s.chanGrid e.1, s.maxV) e.2).2 }

/-- Run a list of accumulation events from `main`'s initial state. -/
def runEvents (cfg : HeatmapConfig) (l : List (Channel × Complex)) : TriState :=
  l.foldl (accumulateEvent cfg) TriState.init

/-- Squaring the zero seed and adding the candidate yields the candidate:
the first iterate of the loop is `c` itself. -/
theorem zero_sq_add (c : Complex) : (⟨0, 0⟩ : Complex) * ⟨0, 0⟩ + c = c := by
  show Complex.add (Complex.mul ⟨0, 0⟩ ⟨0, 0⟩) c = c
  simp [Complex.mul, Complex.add]

/-- A trajectory the loop returns after an escape is strictly shorter than the
remaining fuel it started with. -/
theorem buddhaAux_some_length (c : Complex) :
    ∀ (fuel : Nat) (z : Complex) (l : List Complex),
      buddhaAux c z fuel = some l → l.length < fuel := by
  intro fuel
  induction fuel with
  | zero => intro z l h; simp [buddhaAux] at h
  | succ n ih =>
    intro z l h
    by_cases hz : z.sqmagnitude ≤ 2
    · simp only [buddhaAux, if_pos hz] at h
      rcases Option.map_eq_some'.mp h with ⟨l', hl', rfl⟩
      simpa using Nat.succ_lt_succ (ih _ _ hl')
    · simp only [buddhaAux, if_neg hz] at h
      obtain rfl : ([] : List Complex) = l := by simpa using h
      simp

/-- The loop exhausts its fuel (the `n == nIterations` branch) exactly when no
iterate visited during that fuel budget has squared magnitude above `2`. -/
theorem buddhaAux_eq_none_iff (c : Complex) :
    ∀ (fuel j : Nat),
      buddhaAux c (mandelIter c j) fuel = none ↔
        ∀ t, t < fuel → (mandelIter c (j + t)).sqmagnitude ≤ 2 := by
  intro fuel
  induction fuel with
  | zero => intro j; simp [buddhaAux]
  | succ n ih =>
    intro j
    by_cases hz : (mandelIter c j).sqmagnitude ≤ 2
    · have hstep : mandelIter c j * mandelIter c j + c = mandelIter c (j + 1) := rfl
      simp only [buddhaAux, if_pos hz, hstep, Option.map_eq_none']
      rw [ih (j + 1)]
      constructor
      · intro hall t ht
        cases t with
        | zero => simpa using hz
        | succ t' =>
          have h := hall t' (by omega)
          have harith : j + 1 + t' = j + (t' + 1) := by omega
          rwa [harith] at h
      · intro hall t ht
        have h := hall (t + 1) (by omega)
        have harith : j + (t + 1) = j + 1 + t := by omega
        rwa [harith] at h
    · simp only [buddhaAux, if_neg hz]
      constructor
      · intro h; simp at h
      · intro hall
        have h0 := hall 0 (Nat.succ_pos n)
        rw [Nat.add_zero] at h0
        exact absurd h0 hz

/-- When the loop returns an escaped trajectory, that trajectory is exactly
the iterates `z_{j+1}, …, z_{j+m}` up to and including the first iterate whose
squared magnitude exceeds `2`, and the escape happened strictly inside the
fuel budget. -/
theorem buddhaAux_eq_some (c : Complex) :
    ∀ (fuel j : Nat) (l : List Complex),
      buddhaAux c (mandelIter c j) fuel = some l →
        ∃ m, m < fuel ∧ (∀ t, t < m → (mandelIter c (j + t)).sqmagnitude ≤ 2) ∧
          2 < (mandelIter c (j + m)).sqmagnitude ∧
          l = (List.range m).map (fun t => mandelIter c (j + t + 1)) := by
  intro fuel
  induction fuel with
  | zero => intro j l h; simp [buddhaAux] at h
  | succ n ih =>
    intro j l h
    by_cases hz : (mandelIter c j).sqmagnitude ≤ 2
    · have hstep : mandelIter c j * mandelIter c j + c = mandelIter c (j + 1) := rfl
      simp only [buddhaAux, if_pos hz, hstep] at h
      rcases Option.map_eq_some'.mp h with ⟨l', hl', rfl⟩
      rcases ih (j + 1) l' hl' with ⟨m', hm'lt, hbound, hesc, hl'eq⟩
      refine ⟨m' + 1, by omega, ?_, ?_, ?_⟩
      · intro t ht
        cases t with
        | zero => simpa using hz
        | succ t' =>
          have h' := hbound t' (by omega)
          have harith : j + 1 + t' = j + (t' + 1) := by omega
          rwa [harith] at h'
      · have harith : j + 1 + m' = j + (m' + 1) := by omega
        rwa [harith] at hesc
      · rw [hl'eq, List.range_succ_eq_map, List.map_cons, List.map_map]
        congr 1
        refine List.map_congr_left fun a _ => ?_
        show mandelIter c (j + 1 + a + 1) = mandelIter c (j + (a + 1) + 1)
        congr 1
        omega
    · simp only [buddhaAux, if_neg hz] at h
      obtain rfl : ([] : List Complex) = l := by simpa using h
      refine ⟨0, by omega, ?_, ?_, by simp⟩
      · intro t ht; exact absurd ht (by omega)
      · simpa using not_le.mp hz

/-- Claim C2, counterexample: the claim demands a non-empty sequence for every
positive iteration bound, but at `c = 3 + 0i` (so `|c|² = 9 > 4`, `|c| > 2`)
with bound `N = 1` the loop performs its single permitted iteration, exits
with `n == nIterations`, and `buddhabrotPoints` returns the empty sequence
even though the lone iterate escaped. -/
theorem c2_counterexample :
    4 < (Complex.sqmagnitude ⟨3, 0⟩) ∧ (0 : Int) < 1 ∧
      buddhabrotPoints ⟨3, 0⟩ 1 = [] := by
  with_unfolding_all decide

/-- Claim C2 (amended): for every candidate `c` with `|c| > 2` (equivalently
`|c|² > 4`) and every iteration bound `N ≥ 2`, `buddhabrotPoints c N` is
non-empty and its first element is `c` itself, whose squared magnitude
exceeds `2.0`.  (The bound `N = 1` is excluded: there the escape coincides
with fuel exhaustion and the code discards the trajectory.) -/
theorem c2_immediate_escape (c : Complex) (N : Int)
    (hc : 4 < c.sqmagnitude) (hN : 2 ≤ N) :
    buddhabrotPoints c N ≠ [] ∧ (buddhabrotPoints c N).head? = some c ∧
      2 < c.sqmagnitude := by
  obtain ⟨k, hk⟩ : ∃ k, N.toNat = k + 2 := ⟨N.toNat - 2, by omega⟩
  have h0 : (Complex.sqmagnitude ⟨0, 0⟩) ≤ 2 := by
    norm_num [Complex.sqmagnitude]
  have hz : ((⟨0, 0⟩ : Complex) * ⟨0, 0⟩ + c) = c := zero_sq_add c
  have hcne : ¬ (c.sqmagnitude ≤ 2) := by linarith
  have e1 : buddhaAux c ⟨0, 0⟩ (k + 2) =
      (buddhaAux c c (k + 1)).map (fun rest => c :: rest) := by
    simp only [buddhaAux]
    rw [if_pos h0, hz]
  have e2 : buddhaAux c c (k + 1) = some [] := by
    simp only [buddhaAux]
    rw [if_neg hcne]
  have hval : buddhabrotPoints c N = [c] := by
    unfold buddhabrotPoints
    rw [hk, e1, e2]
    rfl
  rw [hval]
  refine ⟨by simp, by simp, by linarith⟩

/-- Claim C2 witness: the amended theorem applied at `c = 3 + 0i`, `N = 2`. -/
theorem c2_immediate_escape_witness :
    buddhabrotPoints ⟨3, 0⟩ 2 ≠ [] ∧ (buddhabrotPoints ⟨3, 0⟩ 2).head? = some ⟨3, 0⟩ ∧
      2 < (Complex.sqmagnitude ⟨3, 0⟩) :=
  c2_immediate_escape ⟨3, 0⟩ 2 (by with_unfolding_all decide) (by decide)

/-- Claim C8: every non-empty trajectory returned by `buddhabrotPoints` has
length strictly less than the configured iteration bound. -/
theorem c8_returned_length_lt_bound (c : Complex) (N : Int)
    (h : buddhabrotPoints c N ≠ []) :
    ((buddhabrotPoints c N).length : Int) < N := by
  unfold buddhabrotPoints at h ⊢
  cases haux : buddhaAux c ⟨0, 0⟩ N.toNat with
  | none => rw [haux] at h; simp at h
  | some l =>
    rw [haux] at h
    have hlen := buddhaAux_some_length c N.toNat ⟨0, 0⟩ l haux
    simp only [Option.getD_some] at h ⊢
    omega

/-- Claim C8 witness: at `c = 1 + 1i`, `N = 3` the returned trajectory is
`[1+1i, 1+3i]`, of length `2 < 3`. -/
theorem c8_returned_length_lt_bound_witness :
    buddhabrotPoints ⟨1, 1⟩ 3 ≠ [] ∧ ((buddhabrotPoints ⟨1, 1⟩ 3).length : Int) < 3 :=
  ⟨by with_unfolding_all decide,
    c8_returned_length_lt_bound ⟨1, 1⟩ 3 (by with_unfolding_all decide)⟩

/-- Claim C10, counterexample: the claim says every `N ≤ 0` returns the
empty sequence, but at `N = -3` the call `toReturn.reserve(nIterations)` at
line 76 converts the negative `int` to a `size_t` above `max_size()` and
throws `std::length_error` before the loop, so no sequence — not even an
empty one — is returned. -/
theorem c10_counterexample :
    (-3 : Int) ≤ 0 ∧ buddhabrotPointsChecked ⟨5, 5⟩ (-3) ≠ some [] := by
  with_unfolding_all decide

/-- Claim C10 (amended): the iteration terminates on every input — the loop
body runs at most `max(N, 0)` times, so any sequence actually returned has
length at most `max(N, 0)` (`= N.toNat`); the bound `N = 0` returns the
empty sequence; and for every `N < 0` the `reserve` call throws
`std::length_error` before the loop, so no sequence is returned. -/
theorem c10_loop_bounded (c : Complex) (N : Int) :
    (∀ l, buddhabrotPointsChecked c N = some l → l.length ≤ N.toNat) ∧
    (N = 0 → buddhabrotPointsChecked c N = some []) ∧
    (N < 0 → buddhabrotPointsChecked c N = none) := by
  by_cases hN : N < 0
  · refine ⟨?_, ?_, fun _ => ?_⟩
    · intro l hl
      simp [buddhabrotPointsChecked, if_pos hN] at hl
    · intro h0
      omega
    · simp [buddhabrotPointsChecked, if_pos hN]
  · have hrep : buddhabrotPointsChecked c N = some (buddhabrotPoints c N) := by
      simp [buddhabrotPointsChecked, if_neg hN]
    refine ⟨?_, ?_, fun h => absurd h hN⟩
    · intro l hl
      rw [hrep] at hl
      obtain rfl : buddhabrotPoints c N = l := by simpa using hl
      unfold buddhabrotPoints
      cases haux : buddhaAux c ⟨0, 0⟩ N.toNat with
      | none => simp
      | some l' =>
        simpa using Nat.le_of_lt (buddhaAux_some_length c N.toNat ⟨0, 0⟩ l' haux)
    · intro h0
      subst h0
      rw [hrep]
      rfl

/-- Claim C10 witness: the amended theorem applied at `N = -3` — the
`reserve` throw, not an empty sequence. -/
theorem c10_loop_bounded_witness :
    buddhabrotPointsChecked ⟨5, 5⟩ (-3) = none :=
  (c10_loop_bounded ⟨5, 5⟩ (-3)).2.2 (by decide)

/-- Claim C3, counterexample: the claim says the empty sequence comes back
exactly when no iterate escapes within `N` iterations; at `c = 3 + 0i`,
`N = 1` the first iterate `z₁ = c` escapes (`|z₁|² = 9 > 2`) within `1`
iteration, yet the code returns the empty sequence, because escape exactly at
the `N`-th iteration is classified by `n == nIterations` as bounded. -/
theorem c3_counterexample :
    buddhabrotPoints ⟨3, 0⟩ 1 = [] ∧
      ∃ k : Nat, 1 ≤ k ∧ (k : Int) ≤ 1 ∧ 2 < (mandelIter ⟨3, 0⟩ k).sqmagnitude := by
  refine ⟨by with_unfolding_all decide, 1, le_refl 1, by decide, ?_⟩
  with_unfolding_all decide

/-- Claim C3 (amended): for every positive bound `N`, `buddhabrotPoints c N`
is empty exactly when no iterate with index `k < N` (strictly below the
bound) has squared magnitude above `2.0`; and when it is non-empty it equals
the full visited sequence `z₁, …, z_m` up to and including the first escaping
iterate, whose index `m` satisfies `m < N`.  (Escape exactly at index `N`
is treated as bounded and yields the empty sequence.) -/
theorem c3_empty_iff_no_early_escape (c : Complex) (N : Int) (hN : 0 < N) :
    (buddhabrotPoints c N = [] ↔
      ∀ k : Nat, 1 ≤ k → (k : Int) < N → (mandelIter c k).sqmagnitude ≤ 2) ∧
    (buddhabrotPoints c N ≠ [] →
      ∃ m : Nat, 1 ≤ m ∧ (m : Int) < N ∧ 2 < (mandelIter c m).sqmagnitude ∧
        (∀ k : Nat, 1 ≤ k → k < m → (mandelIter c k).sqmagnitude ≤ 2) ∧
        buddhabrotPoints c N = (List.range m).map (fun t => mandelIter c (t + 1))) := by
  have hsome_ne : ∀ l, buddhaAux c (mandelIter c 0) N.toNat = some l → l ≠ [] := by
    intro l hl hnil
    rcases buddhaAux_eq_some c N.toNat 0 l hl with ⟨m, _, _, hesc, hleq⟩
    rw [hnil] at hleq
    have hm0 : m = 0 := by
      rcases List.map_eq_nil_iff.mp hleq.symm with hr
      simpa [List.range_eq_nil] using hr
    rw [hm0] at hesc
    norm_num [mandelIter, Complex.sqmagnitude] at hesc
  constructor
  · constructor
    · intro hempty k hk1 hkN
      cases haux : buddhaAux c (⟨0, 0⟩ : Complex) N.toNat with
      | none =>
        have hall := (buddhaAux_eq_none_iff c N.toNat 0).mp haux
        have hk := hall k (by omega)
        simpa using hk
      | some l =>
        exfalso
        apply hsome_ne l haux
        unfold buddhabrotPoints at hempty
        rw [haux] at hempty
        simpa using hempty
    · intro hall
      unfold buddhabrotPoints
      have hnone : buddhaAux c (⟨0, 0⟩ : Complex) N.toNat = none := by
        apply (buddhaAux_eq_none_iff c N.toNat 0).mpr
        intro t ht
        cases t with
        | zero => norm_num [mandelIter, Complex.sqmagnitude]
        | succ t' => simpa using hall (t' + 1) (by omega) (by omega)
      rw [hnone]
      rfl
  · intro hne
    cases haux : buddhaAux c (⟨0, 0⟩ : Complex) N.toNat with
    | none =>
      exfalso
      apply hne
      unfold buddhabrotPoints
      rw [haux]
      rfl
    | some l =>
      have hl : buddhabrotPoints c N = l := by
        unfold buddhabrotPoints
        rw [haux]
        rfl
      rcases buddhaAux_eq_some c N.toNat 0 l haux with ⟨m, hmlt, hbound, hesc, hleq⟩
      have hm1 : 1 ≤ m := by
        rcases Nat.eq_zero_or_pos m with hm0 | hpos
        · exfalso
          rw [hm0] at hesc
          norm_num [mandelIter, Complex.sqmagnitude] at hesc
        · exact hpos
      refine ⟨m, hm1, by omega, by simpa using hesc, ?_, ?_⟩
      · intro k hk1 hkm
        simpa using hbound k hkm
      · rw [hl, hleq]
        simp

/-- Claim C3 witness: the amended theorem applied at `c = 3 + 0i`, `N = 2`. -/
theorem c3_empty_iff_no_early_escape_witness :
    (buddhabrotPoints ⟨3, 0⟩ 2 = [] ↔
      ∀ k : Nat, 1 ≤ k → (k : Int) < 2 → (mandelIter ⟨3, 0⟩ k).sqmagnitude ≤ 2) ∧
    (buddhabrotPoints ⟨3, 0⟩ 2 ≠ [] →
      ∃ m : Nat, 1 ≤ m ∧ (m : Int) < 2 ∧ 2 < (mandelIter ⟨3, 0⟩ m).sqmagnitude ∧
        (∀ k : Nat, 1 ≤ k → k < m → (mandelIter ⟨3, 0⟩ k).sqmagnitude ≤ 2) ∧
        buddhabrotPoints ⟨3, 0⟩ 2 =
          (List.range m).map (fun t => mandelIter ⟨3, 0⟩ (t + 1))) :=
  c3_empty_iff_no_early_escape ⟨3, 0⟩ 2 (by decide)

/-- Incrementing a cell raises exactly that cell by one. -/
theorem Grid.inc_self (g : Grid) (row col : Int) :
    g.inc row col row col = g row col + 1 := by
  simp [Grid.inc]

/-- Incrementing a cell leaves every other cell unchanged. -/
theorem Grid.inc_ne (g : Grid) (row col r c : Int) (h : ¬ (r = row ∧ c = col)) :
    g.inc row col r c = g r c := by
  simp [Grid.inc, h]

/-- Two single-cell increments commute. -/
theorem Grid.inc_comm (g : Grid) (r1 c1 r2 c2 : Int) :
    (g.inc r1 c1).inc r2 c2 = (g.inc r2 c2).inc r1 c1 := by
  funext r c
  simp only [Grid.inc]
  split_ifs <;> omega

/-- The increment-and-update-maximum step commutes with itself, for any two
target cells. -/
theorem accStep_comm (g : Grid) (m : Nat) (r1 c1 r2 c2 : Int) :
    ((g.inc r1 c1).inc r2 c2,
      if (g.inc r1 c1).inc r2 c2 r2 c2 >
          (if g.inc r1 c1 r1 c1 > m then g.inc r1 c1 r1 c1 else m) then
        (g.inc r1 c1).inc r2 c2 r2 c2
      else if g.inc r1 c1 r1 c1 > m then g.inc r1 c1 r1 c1 else m) =
    ((g.inc r2 c2).inc r1 c1,
      if (g.inc r2 c2).inc r1 c1 r1 c1 >
          (if g.inc r2 c2 r2 c2 > m then g.inc r2 c2 r2 c2 else m) then
        (g.inc r2 c2).inc r1 c1 r1 c1
      else if g.inc r2 c2 r2 c2 > m then g.inc r2 c2 r2 c2 else m) := by
  by_cases heq : r2 = r1 ∧ c2 = c1
  · obtain ⟨h1, h2⟩ := heq
    subst h1
    subst h2
    rfl
  · have heq' : ¬ (r1 = r2 ∧ c1 = c2) := fun hx => heq ⟨hx.1.symm, hx.2.symm⟩
    refine Prod.ext (Grid.inc_comm g r1 c1 r2 c2) ?_
    rw [Grid.inc_self (g.inc r1 c1) r2 c2, Grid.inc_self (g.inc r2 c2) r1 c1,
      Grid.inc_self g r1 c1, Grid.inc_self g r2 c2,
      Grid.inc_ne g r1 c1 r2 c2 heq, Grid.inc_ne g r2 c2 r1 c1 heq']
    split_ifs <;> omega

/-- The accumulation step of `GenerateHeatmap` is commutative: feeding two
points in either order produces the same `(grid, maxHeatmapValue)` state. -/
theorem accumulatePoint_comm (cfg : HeatmapConfig) (s : Grid × Nat) (a b : Complex) :
    accumulatePoint cfg (accumulatePoint cfg s a) b =
      accumulatePoint cfg (accumulatePoint cfg s b) a := by
  rcases s with ⟨g, m⟩
  by_cases hA : accepts cfg a <;> by_cases hB : accepts cfg b
  · simp only [accumulatePoint, if_pos hA, if_pos hB]
    exact accStep_comm g m _ _ _ _
  · simp only [accumulatePoint, if_pos hA, if_neg hB]
  · simp only [accumulatePoint, if_neg hA, if_pos hB]
  · simp only [accumulatePoint, if_neg hA, if_neg hB]

/-- Folding the accumulation step over any permutation of a point list yields
the same state, from any starting state. -/
theorem foldl_accumulatePoint_perm (cfg : HeatmapConfig) {l1 l2 : List Complex}
    (p : l1.Perm l2) :
    ∀ s : Grid × Nat, l1.foldl (accumulatePoint cfg) s = l2.foldl (accumulatePoint cfg) s := by
  induction p with
  | nil => intro s; rfl
  | cons x _ ih => intro s; simp only [List.foldl_cons]; exact ih _
  | swap x y l => intro s; simp only [List.foldl_cons]; rw [accumulatePoint_comm]
  | trans _ _ ih1 ih2 => intro s; rw [ih1 s, ih2 s]

/-- Claim C7: accumulation is order-independent — feeding any permutation of
a finite list of points through the accumulation step, starting from a fresh
all-zero grid and a zero global maximum, yields an identical final grid and
an identical global maximum. -/
theorem c7_accumulation_order_independent (cfg : HeatmapConfig)
    (l1 l2 : List Complex) (p : l1.Perm l2) :
    l1.foldl (accumulatePoint cfg) (Grid.zero, 0) =
      l2.foldl (accumulatePoint cfg) (Grid.zero, 0) :=
  foldl_accumulatePoint_perm cfg p (Grid.zero, 0)

/-- Claim C7 witness: the two orderings of the points `0` and `1 + 1i`
(both accepted by `main`'s window) accumulate to the same state. -/
theorem c7_accumulation_order_independent_witness :
    List.Perm ([⟨0, 0⟩, ⟨1, 1⟩] : List Complex) [⟨1, 1⟩, ⟨0, 0⟩] ∧
    ([⟨0, 0⟩, ⟨1, 1⟩] : List Complex).foldl (accumulatePoint mainConfig) (Grid.zero, 0) =
      ([⟨1, 1⟩, ⟨0, 0⟩] : List Complex).foldl (accumulatePoint mainConfig) (Grid.zero, 0) :=
  ⟨List.Perm.swap (⟨1, 1⟩ : Complex) ⟨0, 0⟩ [],
    c7_accumulation_order_independent mainConfig _ _
      (List.Perm.swap (⟨1, 1⟩ : Complex) ⟨0, 0⟩ [])⟩

/-- One accumulation step either leaves the state unchanged (point outside
the window) or increments one cell and takes the maximum of the old global
maximum and the new cell value. -/
theorem accumulatePoint_cases (cfg : HeatmapConfig) (g : Grid) (m : Nat) (p : Complex) :
    accumulatePoint cfg (g, m) p = (g, m) ∨
    ∃ row col, accumulatePoint cfg (g, m) p =
      (g.inc row col, if g row col + 1 > m then g row col + 1 else m) := by
  by_cases h : accepts cfg p
  · right
    refine ⟨rowFromReal p.r cfg.minimum.r cfg.maximum.r cfg.imageHeight,
      colFromImaginary p.i cfg.minimum.i cfg.maximum.i cfg.imageWidth, ?_⟩
    simp only [accumulatePoint, if_pos h]
    rw [Grid.inc_self]
  · left
    simp only [accumulatePoint, if_neg h]

/-- Replacing a channel's grid is read back by `chanGrid` of that channel. -/
theorem chanGrid_setChan_same (s : TriState) (ch : Channel) (g : Grid) :
    (s.setChan ch g).chanGrid ch = g := by
  cases ch <;> rfl

/-- Replacing one channel's grid leaves the other channels' grids unchanged. -/
theorem chanGrid_setChan_ne (s : TriState) (ch ch' : Channel) (g : Grid)
    (h : ch' ≠ ch) : (s.setChan ch g).chanGrid ch' = s.chanGrid ch' := by
  cases ch <;> cases ch' <;> first | rfl | exact absurd rfl h

/-- `chanGrid` ignores the `maxV` field. -/
theorem chanGrid_set_maxV (s : TriState) (v : Nat) (ch : Channel) :
    ({ s with maxV := v }).chanGrid ch = s.chanGrid ch := by
  cases ch <;> rfl

/-- `setChan` leaves the `maxV` field unchanged. -/
theorem maxV_setChan (s : TriState) (ch : Channel) (g : Grid) :
    (s.setChan ch g).maxV = s.maxV := by
  cases ch <;> rfl

/-- One accumulation event preserves the global-maximum invariant: the shared
scalar bounds every cell of every channel grid, and is zero or attained by
some cell. -/
theorem accumulateEvent_invariant (cfg : HeatmapConfig) (s : TriState)
    (e : Channel × Complex)
    (hub : ∀ ch r c, s.chanGrid ch r c ≤ s.maxV)
    (hat : s.maxV = 0 ∨ ∃ ch r c, s.chanGrid ch r c = s.maxV) :
    (∀ ch r c, (accumulateEvent cfg s e).chanGrid ch r c ≤ (accumulateEvent cfg s e).maxV) ∧
    ((accumulateEvent cfg s e).maxV = 0 ∨
      ∃ ch r c, (accumulateEvent cfg s e).chanGrid ch r c = (accumulateEvent cfg s e).maxV) := by
  rcases e with ⟨ech, p⟩
  rcases accumulatePoint_cases cfg (s.chanGrid ech) s.maxV p with hcase | ⟨row, col, hcase⟩
  · have hstate : accumulateEvent cfg s (ech, p) = s := by
      simp only [accumulateEvent, hcase]
      cases ech <;> rfl
    rw [hstate]
    exact ⟨hub, hat⟩
  · have hgrid : ∀ ch, (accumulateEvent cfg s (ech, p)).chanGrid ch =
        (s.setChan ech ((s.chanGrid ech).inc row col)).chanGrid ch := by
      intro ch
      simp only [accumulateEvent, hcase]
      exact chanGrid_set_maxV _ _ ch
    have hmax : (accumulateEvent cfg s (ech, p)).maxV =
        if s.chanGrid ech row col + 1 > s.maxV then s.chanGrid ech row col + 1
        else s.maxV := by
      simp only [accumulateEvent, hcase]
    constructor
    · intro ch r c
      rw [hgrid ch, hmax]
      by_cases hch : ch = ech
      · subst hch
        rw [chanGrid_setChan_same]
        by_cases hcell : r = row ∧ c = col
        · obtain ⟨rfl, rfl⟩ := hcell
          rw [Grid.inc_self]
          split_ifs with hgt
          · omega
          · omega
        · rw [Grid.inc_ne _ _ _ _ _ hcell]
          have := hub ch r c
          split_ifs with hgt <;> omega
      · rw [chanGrid_setChan_ne _ _ _ _ hch]
        have := hub ch r c
        split_ifs with hgt <;> omega
    · rw [hmax]
      by_cases hgt : s.chanGrid ech row col + 1 > s.maxV
      · right
        refine ⟨ech, row, col, ?_⟩
        rw [hgrid ech, chanGrid_setChan_same, Grid.inc_self, if_pos hgt]
      · rw [if_neg hgt]
        rcases hat with hzero | ⟨ch', r', c', hattain⟩
        · exact Or.inl hzero
        · right
          refine ⟨ch', r', c', ?_⟩
          rw [hgrid ch']
          by_cases hch : ch' = ech
          · subst hch
            rw [chanGrid_setChan_same]
            by_cases hcell : r' = row ∧ c' = col
            · obtain ⟨rfl, rfl⟩ := hcell
              omega
            · rw [Grid.inc_ne _ _ _ _ _ hcell]
              exact hattain
          · rw [chanGrid_setChan_ne _ _ _ _ hch]
            exact hattain

/-- Folding accumulation events preserves the global-maximum invariant from
any state that satisfies it. -/
theorem foldl_accumulateEvent_invariant (cfg : HeatmapConfig) :
    ∀ (l : List (Channel × Complex)) (s : TriState),
      (∀ ch r c, s.chanGrid ch r c ≤ s.maxV) →
      (s.maxV = 0 ∨ ∃ ch r c, s.chanGrid ch r c = s.maxV) →
      (∀ ch r c, (l.foldl (accumulateEvent cfg) s).chanGrid ch r c ≤
          (l.foldl (accumulateEvent cfg) s).maxV) ∧
      ((l.foldl (accumulateEvent cfg) s).maxV = 0 ∨
        ∃ ch r c, (l.foldl (accumulateEvent cfg) s).chanGrid ch r c =
          (l.foldl (accumulateEvent cfg) s).maxV) := by
  intro l
  induction l with
  | nil => intro s hub hat; exact ⟨hub, hat⟩
  | cons e rest ih =>
    intro s hub hat
    have hstep := accumulateEvent_invariant cfg s e hub hat
    simpa using ih (accumulateEvent cfg s e) hstep.1 hstep.2

/-- Claim C9: after any prefix of the (sequential, shared-scalar) channel
accumulation passes, run from `main`'s initial state (all-zero grids, zero
maximum), the shared global maximum bounds every cell of every channel grid
and is either zero (before any increment, and as long as no cell was ever
raised) or attained by some cell — i.e. it equals the maximum cell value
observed so far across every grid. -/
theorem c9_global_maximum_invariant (cfg : HeatmapConfig)
    (l : List (Channel × Complex)) :
    (∀ ch r c, (runEvents cfg l).chanGrid ch r c ≤ (runEvents cfg l).maxV) ∧
    ((runEvents cfg l).maxV = 0 ∨
      ∃ ch r c, (runEvents cfg l).chanGrid ch r c = (runEvents cfg l).maxV) := by
  have hub : ∀ ch r c, TriState.init.chanGrid ch r c ≤ TriState.init.maxV := by
    intro ch r c
    cases ch <;> exact Nat.le_refl 0
  exact foldl_accumulateEvent_invariant cfg l TriState.init hub (Or.inl rfl)

/-- Claim C1, failing input: under `main`'s configuration the trajectory
point `0 + 2i` — imaginary part exactly `MAXIMUM.i` — passes the inclusive
window-acceptance test of `GenerateHeatmap`, yet the column computed from its
imaginary part is `7000 = IMAGE_WIDTH`, outside `[0, IMAGE_WIDTH)`: the
increment `++o_heatmap[row][7000]` is an out-of-bounds write.  (With these
constants the `double` computation is exact: `7000 / 4 = 1750` and
`4 * 1750 = 7000` are exactly representable, so IEEE arithmetic reaches the
same index.) -/
theorem c1_boundary_point_maps_out_of_range :
    accepts mainConfig ⟨0, 2⟩ ∧
    colFromImaginary (Complex.i ⟨0, 2⟩) mainConfig.minimum.i mainConfig.maximum.i
        mainConfig.imageWidth = IMAGE_WIDTH ∧
    ¬ colFromImaginary (Complex.i ⟨0, 2⟩) mainConfig.minimum.i mainConfig.maximum.i
        mainConfig.imageWidth < IMAGE_WIDTH := by
  with_unfolding_all decide

set_option maxRecDepth 40000 in
/-- Claim C4, failing input: at raw value `25`, global maximum `25` and
ceiling `255`, the claim demands `floor(25 * 255 / 25) = 255`, but the IEEE
`double` computation of `colorFromHeatmap` rounds `255.0 / 25` to
`2871044762448691 / 2^48 = 10.199999999999999289…`; the product with `25`
rounds to `8972014882652159 / 2^45 = 254.99999999999997…`, and the
`static_cast<int>` truncation yields `254`, not the ceiling `255`. -/
theorem c4_max_cell_not_ceiling : colorFromHeatmapIEEE 25 25 255 = 254 := by
  with_unfolding_all decide

/-- Claim C4, exact contrast: with the roundings of `double` arithmetic
replaced by exact rational arithmetic the same call would truncate to the
claimed `floor(25 * 255 / 25) = 255`, so the deviation is exactly the IEEE
rounding of `colorFromHeatmap`'s two operations. -/
theorem c4_exact_arithmetic_contrast : colorFromHeatmap 25 25 255 = 255 := by
  with_unfolding_all decide

/-- Claim C5, failing behavior: `main` never tests `maxHeatmapValue` for
zero — its scaling loop calls `colorFromHeatmap(cell, 0, 255)` on every cell
and no error is surfaced.  In this exact-rational embedding the division
`255 / 0` follows the `x / 0 = 0` convention, so the loop silently produces
`0` for every cell instead of reporting the degenerate configuration (the
C++ `double` computation produces `inf`, then `0 * inf = NaN`, and the
`int` cast of `NaN` is undefined behavior). -/
theorem c5_zero_maximum_not_surfaced (g : Grid) (r c : Int) :
    scaleGrid g 0 r c = 0 := by
  simp [scaleGrid, colorFromHeatmap, castToInt]

/-- Claim C6, failing behavior: `GenerateHeatmap` (and `main`) perform no
configuration validation.  With the invalid iteration bound `0` and one
sample, the driver is not rejected before sampling: it runs its sampling
loop to completion and returns an ordinary `(grid, maximum)` result — there
is no error path at all. -/
theorem c6_invalid_config_not_rejected :
    (0 : Int) ≤ 0 ∧
      GenerateHeatmap mainConfig 0 [⟨3, 0⟩] (Grid.zero, 0) = (Grid.zero, 0) :=
  ⟨le_refl 0, rfl⟩

end Buddhabrot
